import Mathlib

/-!
# Verification of the pdfgod RAG core

Shallow embedding of the retrieval-augmented-generation core of the
pdfgod repository:

* `src/lib/services/ollama.ts` (`OllamaService`: connection lifecycle,
  model discovery, generation, embeddings),
* `src/lib/rag/vector-store.ts` (`SimpleVectorStore`: cosine similarity,
  top-k similarity search),
* `src/app/api/chat/route.ts` (the chat orchestrator route),
* the chunking configuration of `src/lib/rag/pdf-processor.ts`.

JavaScript numbers are modelled as exact rationals extended with `NaN`
and the two signed infinities (`FloatM`); binary rounding of IEEE-754
doubles is not modelled, and the theorems below only evaluate square
roots at perfect squares, where `Math.sqrt` is exact as well.  Network
effects are modelled by passing the outcome of each `fetch` explicitly
and recording the calls a function issues as a trace of events.
-/

/-- A JavaScript number: an exact rational, `NaN`, or a signed
infinity.  Signed zero is identified with zero. -/
inductive FloatM where
  | nan
  | inf
  | ninf
  | fin (q : ℚ)
deriving DecidableEq, Repr

namespace FloatM

/-- IEEE-style negation. -/
def neg : FloatM → FloatM
  | nan => nan
  | inf => ninf
  | ninf => inf
  | fin q => fin (-q)

/-- IEEE-style addition: `NaN` is absorbing, opposite infinities give `NaN`. -/
def add : FloatM → FloatM → FloatM
  | nan, _ => nan
  | _, nan => nan
  | inf, ninf => nan
  | ninf, inf => nan
  | inf, _ => inf
  | ninf, _ => ninf
  | fin _, inf => inf
  | fin _, ninf => ninf
  | fin a, fin b => fin (a + b)

/-- IEEE-style subtraction, as used by the sort comparator
`(a, b) => b.score - a.score`. -/
def sub (x y : FloatM) : FloatM := add x (neg y)

/-- IEEE-style multiplication: `NaN` absorbing, `0 * ∞ = NaN`. -/
def mul : FloatM → FloatM → FloatM
  | nan, _ => nan
  | _, nan => nan
  | inf, inf => inf
  | inf, ninf => ninf
  | ninf, inf => ninf
  | ninf, ninf => inf
  | inf, fin q => if q = 0 then nan else if 0 < q then inf else ninf
  | ninf, fin q => if q = 0 then nan else if 0 < q then ninf else inf
  | fin q, inf => if q = 0 then nan else if 0 < q then inf else ninf
  | fin q, ninf => if q = 0 then nan else if 0 < q then ninf else inf
  | fin a, fin b => fin (a * b)

/-- IEEE-style division: `0 / 0 = NaN`, `x / 0 = ±∞` for `x ≠ 0`,
`∞ / ∞ = NaN`, `x / ∞ = 0`. -/
def div : FloatM → FloatM → FloatM
  | nan, _ => nan
  | _, nan => nan
  | inf, inf => nan
  | inf, ninf => nan
  | ninf, inf => nan
  | ninf, ninf => nan
  | inf, fin q => if 0 ≤ q then inf else ninf
  | ninf, fin q => if 0 ≤ q then ninf else inf
  | fin _, inf => fin 0
  | fin _, ninf => fin 0
  | fin a, fin b =>
      if b = 0 then (if a = 0 then nan else if 0 < a then inf else ninf)
      else fin (a / b)

/-- Rational stand-in for `Math.sqrt` on nonnegative rationals: exact on
perfect squares (the only arguments the theorems below evaluate it at),
a `Nat.sqrt`-based approximation otherwise. -/
def ratSqrt (q : ℚ) : ℚ := (Nat.sqrt q.num.toNat : ℚ) / (Nat.sqrt q.den : ℚ)

/-- `Math.sqrt`: `NaN` on negative arguments. -/
def sqrtF : FloatM → FloatM
  | nan => nan
  | inf => inf
  | ninf => nan
  | fin q => if q < 0 then nan else fin (ratSqrt q)

/-- Whether a value is an ordinary (finite) number. -/
def isFin : FloatM → Bool
  | fin _ => true
  | _ => false

/-- Strict comparison of two finite values (`false` as soon as either
side is not an ordinary number). -/
def finGt : FloatM → FloatM → Bool
  | fin a, fin b => decide (b < a)
  | _, _ => false

end FloatM

/-- An embedding vector, one `FloatM` per component. -/
abbrev Vec := List FloatM

/-- `a.reduce((sum, val, i) => sum + val * b[i], 0)` from
`SimpleVectorStore.cosineSimilarity`.  Reading `b[i]` past the end of
`b` yields `undefined` in JavaScript; both `undefined * x` and
`undefined + x` are `NaN`, so the out-of-range access is modelled by
`FloatM.nan`, which behaves identically under `*` and `+`. -/
def dotGo (acc : FloatM) : Vec → Vec → FloatM
  | [], _ => acc
  | v :: vs, [] => dotGo (acc.add (v.mul FloatM.nan)) vs []
  | v :: vs, w :: ws => dotGo (acc.add (v.mul w)) vs ws

/-- The dot product of `SimpleVectorStore.cosineSimilarity`. -/
def dotProduct (a b : Vec) : FloatM := dotGo (FloatM.fin 0) a b

/-- `a.reduce((sum, val) => sum + val * val, 0)`. -/
def sumSquares (a : Vec) : FloatM :=
  a.foldl (fun s v => s.add (v.mul v)) (FloatM.fin 0)

/-- `SimpleVectorStore.cosineSimilarity`:
`dotProduct / (magnitudeA * magnitudeB)`, with no guard on the
denominator or on the vector lengths. -/
def cosineSimilarity (a b : Vec) : FloatM :=
  (dotProduct a b).div ((sumSquares a).sqrtF.mul (sumSquares b).sqrtF)

/-!
## Stable sort model

`Array.prototype.sort` is required by ECMAScript (since ES2019) to be
stable; when the comparator is consistent, every stable sort produces
the same list, so the call
`similarities.sort((a, b) => b.score - a.score)` is modelled by a
stable insertion sort driven by the coerced comparator. -/

/-- Insert `a` in front of the first element `b` with `le a b = true`
(stable insertion). -/
def jsInsert (le : α → α → Bool) (a : α) : List α → List α
  | [] => [a]
  | b :: l => if le a b then a :: b :: l else b :: jsInsert le a l

/-- Stable sort of a list: each element is inserted into the sorted
tail, so an element is placed after every earlier element it ties with. -/
def jsSortBy (le : α → α → Bool) : List α → List α
  | [] => []
  | a :: l => jsInsert le a (jsSortBy le l)

/-- The comparator `(a, b) => b.score - a.score` of
`SimpleVectorStore.similaritySearch`, coerced the way the ECMAScript
`SortCompare` operation coerces it: `x` may stay before `y` iff the
comparator value is not positive, and a `NaN` comparator value counts
as zero. -/
def sortLe (x y : Nat × FloatM) : Bool :=
  match FloatM.sub y.2 x.2 with
  | FloatM.nan => true
  | FloatM.inf => false
  | FloatM.ninf => true
  | FloatM.fin q => decide (q ≤ 0)

/-!
## `SimpleVectorStore` (src/lib/rag/vector-store.ts)
-/

/-- A stored chunk/embedding pair of `SimpleVectorStore`. -/
structure StoredDocument where
  pageContent : String
  embedding : Vec
deriving DecidableEq, Repr

/-- `documents.map((doc, i) => ({index: i, score: cosineSimilarity(queryEmbedding, doc.embedding)}))`,
with `i` starting at `start`. -/
def scoreDocsFrom (queryEmbedding : Vec) : Nat → List StoredDocument → List (Nat × FloatM)
  | _, [] => []
  | i, d :: ds =>
      (i, cosineSimilarity queryEmbedding d.embedding) :: scoreDocsFrom queryEmbedding (i + 1) ds

/-- The `similarities.sort((a, b) => b.score - a.score)` step: indexed
scores, stably sorted by descending score. -/
def rankChunks (docs : List StoredDocument) (queryEmbedding : Vec) : List (Nat × FloatM) :=
  jsSortBy sortLe (scoreDocsFrom queryEmbedding 0 docs)

/-!
## `OllamaService` (src/lib/services/ollama.ts)

The service's network calls are modelled by explicit outcome values:
`FetchResult` is the outcome of one `GET {baseUrl}/api/tags` discovery
call, `GenResult` of one `POST /api/generate` call, `EmbedResult` of one
`POST /api/embeddings` call.  Every function returns, next to its
result, the trace of events (network calls and sleeps) it performed, in
order. -/

/-- Outcome of one discovery `fetch` of `/api/tags`: a network-level
rejection, a non-2xx response, or a JSON body with the listed model
names. -/
inductive FetchResult where
  | netError
  | httpNotOk
  | okJson (models : List String)
deriving DecidableEq, Repr

/-- One observable event of the model client. -/
inductive Ev where
  | discover (attempt : Nat)
  | sleepMs (ms : Nat)
  | generateCall (model : String) (prompt : String)
  | embedCall (model : String) (text : String)
deriving DecidableEq, Repr

/-- Substring occurrence test on character lists. -/
def hasSub (pat : List Char) : List Char → Bool
  | [] => pat.isEmpty
  | c :: cs => pat.isPrefixOf (c :: cs) || hasSub pat cs

/-- `s.includes(pat)` for strings: whether `pat` occurs in `s`,
computed on the underlying character lists. -/
def containsSub (s pat : String) : Bool := hasSub pat.data s.data

/-- `OllamaService.maxRetries`. -/
def maxRetries : Nat := 3

/-- `OllamaService.retryDelay` (milliseconds). -/
def retryDelay : Nat := 1000

/-- The default `OllamaService.baseUrl` (the `NEXT_PUBLIC_OLLAMA_API_URL`
environment variable falls back to this constant). -/
def baseUrl : String := "http://127.0.0.1:11434"

/-- Mutable fields of the `OllamaService` singleton. -/
structure OSState where
  isConnected : Bool
  modelName : String
deriving DecidableEq, Repr

/-- The state of a freshly constructed service: not connected, default
model `llama3.2`. -/
def initialOSState : OSState := ⟨false, "llama3.2"⟩

/-- `OllamaService.detectAvailableModel`, as a function of the outcome
of its single `fetch`.  A network error is caught and logged, yielding
`null`; a non-ok response or an empty model list also yields `null`.
Otherwise: if some listed name is `llama3.2` or starts with `llama3.2:`,
the literal string `llama3.2` is returned; otherwise the first name not
containing `vision` is returned; otherwise `null`. -/
def detectAvailableModel (r : FetchResult) : Option String :=
  match r with
  | FetchResult.netError => none
  | FetchResult.httpNotOk => none
  | FetchResult.okJson models =>
      if 0 < models.length then
        match models.find? (fun m => m == "llama3.2" || "llama3.2:".data.isPrefixOf m.data) with
        | some _ => some "llama3.2"
        | none =>
            match models.find? (fun m => !(containsSub m "vision")) with
            | some m => some m
            | none => none
      else none

/-- The loop body of `OllamaService.waitForConnection`: `remaining`
iterations left, the current attempt index being
`maxRetries - remaining`.  Each iteration performs one discovery call
(`Ev.discover`); on success the connection flag and model name are
recorded and the loop stops; otherwise, except after the last attempt,
the loop sleeps `retryDelay` ms and retries. -/
def wfcGo (env : Nat → FetchResult) (retries : Nat) :
    Nat → OSState → Bool × OSState × List Ev
  | 0, st => (false, st, [])
  | remaining + 1, st =>
      let i := retries - (remaining + 1)
      match detectAvailableModel (env i) with
      | some m => (true, ⟨true, m⟩, [Ev.discover i])
      | none =>
          let sl := if 0 < remaining then [Ev.sleepMs retryDelay] else []
          let rest := wfcGo env retries remaining st
          (rest.1, rest.2.1, Ev.discover i :: (sl ++ rest.2.2))

/-- `OllamaService.waitForConnection()` with its default argument
`retries = maxRetries`; `env i` is the outcome of the discovery fetch
of attempt `i`. -/
def waitForConnection (env : Nat → FetchResult) (st : OSState) : Bool × OSState × List Ev :=
  wfcGo env maxRetries maxRetries st

/-- The result object of `OllamaService.checkConnection`. -/
structure ConnStatus where
  isRunning : Bool
  error : Option String
deriving DecidableEq, Repr

/-- The descriptive message `checkConnection` reports when every
attempt failed. -/
def connFailMsg : String :=
  "Could not connect to Ollama at " ++ baseUrl ++
    " after multiple attempts. Please ensure Ollama is running."

/-- `OllamaService.checkConnection()`: runs `waitForConnection` and
wraps the boolean outcome into a `ConnStatus`; the surrounding
`try/catch` is unreachable because `waitForConnection` never throws. -/
def checkConnection (env : Nat → FetchResult) (st : OSState) :
    ConnStatus × OSState × List Ev :=
  let r := waitForConnection env st
  if r.1 then (⟨true, none⟩, r.2.1, r.2.2)
  else (⟨false, some connFailMsg⟩, r.2.1, r.2.2)

/-- Outcome of the single `POST /api/generate` fetch. -/
inductive GenResult where
  | ok (text : String)
  | httpErr (statusText : String) (body : String)
  | netErr (msg : String)
deriving DecidableEq, Repr

/-- The body of `OllamaService.generate` after the connection gate: one
generation call with the recorded model name; a non-ok response or a
rejected fetch is wrapped by the `catch` into
`Failed to generate response: ...`. -/
def genCore (genRes : GenResult) (prompt : String) (st : OSState) (tr0 : List Ev) :
    Except String String × OSState × List Ev :=
  let tr := tr0 ++ [Ev.generateCall st.modelName prompt]
  match genRes with
  | GenResult.ok t => (Except.ok t, st, tr)
  | GenResult.httpErr s b =>
      (Except.error ("Failed to generate response: Ollama API error: " ++ s ++ ". " ++ b), st, tr)
  | GenResult.netErr m => (Except.error ("Failed to generate response: " ++ m), st, tr)

/-- `OllamaService.generate(prompt)`: if the service is not connected it
first runs `checkConnection` (throwing its error on failure), then
issues the generation call. -/
def generate (env : Nat → FetchResult) (genRes : GenResult) (prompt : String) (st : OSState) :
    Except String String × OSState × List Ev :=
  if st.isConnected then genCore genRes prompt st []
  else
    let c := checkConnection env st
    if c.1.isRunning then genCore genRes prompt c.2.1 c.2.2
    else (Except.error (c.1.error.getD ""), c.2.1, c.2.2)

/-- Outcome of one `POST /api/embeddings` fetch. -/
inductive EmbedResult where
  | ok (embedding : Vec)
  | httpErr (statusText : String)
  | netErr (msg : String)
deriving DecidableEq, Repr

/-- The `for (const text of texts)` loop of
`OllamaService.getEmbeddings`: one embedding call per text, in input
order; a non-ok response throws `Failed to get embeddings: ...` and a
rejected fetch throws its own message, both stopping the loop. -/
def getEmbeddingsLoop (model : String) (env : String → EmbedResult) :
    List String → Except String (List Vec) × List Ev
  | [] => (Except.ok [], [])
  | t :: ts =>
      match env t with
      | EmbedResult.ok v =>
          let rest := getEmbeddingsLoop model env ts
          (rest.1.map (fun vs => v :: vs), Ev.embedCall model t :: rest.2)
      | EmbedResult.httpErr s =>
          (Except.error ("Failed to get embeddings: " ++ s), [Ev.embedCall model t])
      | EmbedResult.netErr m => (Except.error m, [Ev.embedCall model t])

/-- `OllamaService.getEmbeddings(texts)`: connection gate as in
`generate`, then the sequential loop; any error escaping the loop is
wrapped by the `catch` into `Failed to generate embeddings: ...`. -/
def getEmbeddings (env : Nat → FetchResult) (embedEnv : String → EmbedResult)
    (texts : List String) (st : OSState) :
    Except String (List Vec) × OSState × List Ev :=
  if st.isConnected then
    let l := getEmbeddingsLoop st.modelName embedEnv texts
    (l.1.mapError (fun m => "Failed to generate embeddings: " ++ m), st, l.2)
  else
    let c := checkConnection env st
    if c.1.isRunning then
      let l := getEmbeddingsLoop c.2.1.modelName embedEnv texts
      (l.1.mapError (fun m => "Failed to generate embeddings: " ++ m), c.2.1, c.2.2 ++ l.2)
    else (Except.error (c.1.error.getD ""), c.2.1, c.2.2)

/-- Number of discovery calls in a trace. -/
def countDiscover (tr : List Ev) : Nat :=
  (tr.filter (fun e => match e with | Ev.discover _ => true | _ => false)).length

/-!
## `SimpleVectorStore.similaritySearch` with its effects
-/

/-- The part of `SimpleVectorStore.similaritySearch` after the
initialization gate: the empty-store early return, then the `try` block
whose query-embedding call has outcome `queryEmbRes`; the `catch` block
turns any error into an empty result.  On success the indexed scores
are stably sorted descending, the first `k` are kept, and each index is
resolved back to its chunk text (`this.documents[index].pageContent`;
indices produced by the ranking are always in range, so the
out-of-range default is irrelevant). -/
def similaritySearchBody (docs : List StoredDocument)
    (queryEmbRes : Except String Vec) (k : Nat) : Except String (List String) :=
  if docs.length = 0 then Except.ok []
  else
    match queryEmbRes with
    | Except.error _ => Except.ok []
    | Except.ok qe =>
        Except.ok (((rankChunks docs qe).take k).map
          (fun p => (docs.getD p.1 ⟨"", []⟩).pageContent))

/-- `SimpleVectorStore.similaritySearch(query, k)`: if the store is not
initialized, `initialize()` runs `checkConnection` and throws
`status.error || 'Failed to connect to Ollama service'` when it
reports failure; then `similaritySearchBody`. -/
def similaritySearchM (isInitialized : Bool) (env : Nat → FetchResult) (st : OSState)
    (docs : List StoredDocument) (queryEmbRes : Except String Vec) (k : Nat) :
    Except String (List String) :=
  if isInitialized then similaritySearchBody docs queryEmbRes k
  else
    let c := checkConnection env st
    if c.1.isRunning then similaritySearchBody docs queryEmbRes k
    else Except.error (c.1.error.getD "Failed to connect to Ollama service")

/-!
## The chat route (src/app/api/chat/route.ts)
-/

/-- `history.map((msg) => msg.role + ": " + msg.content).join('\n')`. -/
def historyLines (history : List (String × String)) : String :=
  String.intercalate "\n" (history.map (fun p => p.1 ++ ": " ++ p.2))

/-- The prompt built when `contextChunks.length > 0`. -/
def promptWithContext (ctx : List String) (history : List (String × String))
    (message : String) : String :=
  "You are a helpful AI assistant. Use the following context to answer the user\x27s question. If you cannot find the answer in the context, say so.\n\nContext:\n"
    ++ String.intercalate "\n\n" ctx
    ++ "\n\nChat History:\n" ++ historyLines history
    ++ "\n\nUser: " ++ message ++ "\nAssistant:"

/-- The prompt built when no context chunks were found. -/
def promptNoContext (history : List (String × String)) (message : String) : String :=
  "You are a helpful AI assistant. Answer the user\x27s question to the best of your ability.\n\nChat History:\n"
    ++ historyLines history
    ++ "\n\nUser: " ++ message ++ "\nAssistant:"

/-- Modelled from the spec: `formatError` lives in `src/lib/utils`,
which is not among the provided sources; the spec only requires errors
to be "surfaced with upstream status detail", so it is modelled as
returning the error's message unchanged. -/
def formatError (msg : String) : String := msg

/-- The JSON reply of the chat route. -/
structure ChatResponse where
  status : Nat
  response : Option String
  error : Option String
  context : List String
deriving DecidableEq, Repr

/-- `POST /api/chat`: checks the connection (503 on failure), validates
the message (400 when missing or empty, both being falsy), runs the
retrieval whose outcome is `retrieval` — the `catch` turns a retrieval
error into "continue without context" — then builds the prompt with or
without context and calls `generate`; a generation error reaches the
outer `catch`, which replies 500 (the wrapped error carries no
`ECONNREFUSED` code, so the 503 branch of the outer catch is not
taken for generation failures). -/
def chatPOST (env : Nat → FetchResult) (genRes : GenResult) (st : OSState)
    (message : Option String) (history : List (String × String))
    (retrieval : Except String (List String)) : ChatResponse × List Ev :=
  let c := checkConnection env st
  if c.1.isRunning = false then (⟨503, none, c.1.error, []⟩, c.2.2)
  else
    match message with
    | none => (⟨400, none, some "Message is required", []⟩, c.2.2)
    | some m =>
        if m = "" then (⟨400, none, some "Message is required", []⟩, c.2.2)
        else
          let contextChunks := match retrieval with
            | Except.ok cs => cs
            | Except.error _ => []
          let prompt := if 0 < contextChunks.length
            then promptWithContext contextChunks history m
            else promptNoContext history m
          let g := generate env genRes prompt c.2.1
          match g.1 with
          | Except.ok resp => (⟨200, some resp, none, contextChunks⟩, c.2.2 ++ g.2.2)
          | Except.error msg => (⟨500, none, some (formatError msg), []⟩, c.2.2 ++ g.2.2)

/-!
## Chunker

The repository delegates chunking to langchain's
`RecursiveCharacterTextSplitter`, configured in
`src/lib/rag/pdf-processor.ts` with `chunkSize: 1000, chunkOverlap: 200`;
the splitter's own implementation is an external dependency whose code
is not part of this repository's sources. -/

/-- Modelled from the spec: the Chunker contract of an implementation
that is not among the sources (only its configuration in
`pdf-processor.ts` is).  "Splits raw extracted text into overlapping
fixed-size windows": windows of `C` units starting every `C - O` units,
the last window holding whatever remains.  Inputs violating the
contract `O < C` return the whole text as one chunk. -/
def chunkText (C O : Nat) (xs : List α) : List (List α) :=
  if xs.length ≤ C ∨ C ≤ O then [xs]
  else xs.take C :: chunkText C O (xs.drop (C - O))
termination_by xs.length
decreasing_by
  simp only [List.length_drop]
  omega

/-!
## Spec-side model selection (for the refinement claim C8)
-/

/-- The selection policy exactly as the claim states it: "an exact
match of the preferred model name if present in the endpoint's model
list, otherwise the first listed model that is not excluded (not a
vision model), otherwise none found". -/
def specSelectModel (preferred : String) (models : List String) : Option String :=
  if models.contains preferred then some preferred
  else models.find? (fun m => !(containsSub m "vision"))

/-- The amended selection policy: a listed name equal to `llama3.2` or
starting with `llama3.2:` counts as a preferred match and the bare name
`llama3.2` is recorded; otherwise the first listed name not containing
`vision` is chosen; otherwise none. -/
def amendedSelect (models : List String) : Option String :=
  if models.any (fun m => m == "llama3.2" || "llama3.2:".data.isPrefixOf m.data) then some "llama3.2"
  else models.find? (fun m => !(containsSub m "vision"))

/-!
## Helper lemmas
-/

theorem jsInsert_length (le : α → α → Bool) (a : α) (l : List α) :
    (jsInsert le a l).length = l.length + 1 := by
  induction l with
  | nil => rfl
  | cons b bs ih =>
      simp only [jsInsert]
      by_cases h : le a b = true
      · simp [h]
      · simp [h, ih]

theorem jsSortBy_length (le : α → α → Bool) (l : List α) :
    (jsSortBy le l).length = l.length := by
  induction l with
  | nil => rfl
  | cons a l ih => simp [jsSortBy, jsInsert_length, ih]

theorem mem_jsInsert (le : α → α → Bool) (a x : α) (l : List α) :
    x ∈ jsInsert le a l ↔ x = a ∨ x ∈ l := by
  induction l with
  | nil => simp [jsInsert]
  | cons b bs ih =>
      simp only [jsInsert]
      by_cases h : le a b = true
      · simp [h]
      · have hf : le a b = false := by simpa using h
        simp only [hf, Bool.false_eq_true, if_false, List.mem_cons, ih]
        tauto

theorem jsInsert_perm (le : α → α → Bool) (a : α) (l : List α) :
    (jsInsert le a l).Perm (a :: l) := by
  induction l with
  | nil => simp [jsInsert]
  | cons b bs ih =>
      simp only [jsInsert]
      by_cases h : le a b = true
      · simp [h]
      · simp only [h, if_false]
        exact (ih.cons b).trans (List.Perm.swap a b bs)

theorem jsSortBy_perm (le : α → α → Bool) (l : List α) :
    (jsSortBy le l).Perm l := by
  induction l with
  | nil => simp [jsSortBy]
  | cons a l ih =>
      simp only [jsSortBy]
      exact (jsInsert_perm le a (jsSortBy le l)).trans (ih.cons a)

theorem mem_jsSortBy (le : α → α → Bool) (x : α) (l : List α) :
    x ∈ jsSortBy le l ↔ x ∈ l :=
  (jsSortBy_perm le l).mem_iff

theorem pairwise_jsInsert (le : α → α → Bool) (R : α → α → Prop) (a : α) (l : List α)
    (htrans : ∀ x y z, R x y → R y z → R x z)
    (h1 : ∀ b ∈ l, le a b = true → R a b)
    (h2 : ∀ b ∈ l, le a b = false → R b a)
    (hl : l.Pairwise R) :
    (jsInsert le a l).Pairwise R := by
  induction l with
  | nil => simp [jsInsert]
  | cons b bs ih =>
      rw [List.pairwise_cons] at hl
      simp only [jsInsert]
      by_cases h : le a b = true
      · rw [if_pos h, List.pairwise_cons]
        refine ⟨?_, List.pairwise_cons.mpr hl⟩
        intro y hy
        rcases List.mem_cons.mp hy with hyb | hybs
        · exact hyb ▸ h1 b (by simp) h
        · exact htrans a b y (h1 b (by simp) h) (hl.1 y hybs)
      · rw [if_neg h, List.pairwise_cons]
        refine ⟨?_, ?_⟩
        · intro y hy
          rcases (mem_jsInsert le a y bs).mp hy with hya | hybs
          · exact hya ▸ h2 b (by simp) (by simpa using h)
          · exact hl.1 y hybs
        · exact ih (fun c hc => h1 c (by simp [hc])) (fun c hc => h2 c (by simp [hc])) hl.2

theorem pairwise_jsSortBy (le : α → α → Bool) (R : α → α → Prop)
    (htrans : ∀ x y z, R x y → R y z → R x z) :
    ∀ l : List α,
      l.Pairwise (fun x y => (le x y = true → R x y) ∧ (le x y = false → R y x)) →
      (jsSortBy le l).Pairwise R := by
  intro l
  induction l with
  | nil => intro _; simp [jsSortBy]
  | cons a l ih =>
      intro hp
      rw [List.pairwise_cons] at hp
      simp only [jsSortBy]
      refine pairwise_jsInsert le R a (jsSortBy le l) htrans ?_ ?_ (ih hp.2)
      · intro b hb hab
        exact (hp.1 b ((mem_jsSortBy le b l).mp hb)).1 hab
      · intro b hb hab
        exact (hp.1 b ((mem_jsSortBy le b l).mp hb)).2 hab

/-- The intended output order of the ranking: strictly greater score
first, ties broken by the original insertion index. -/
def descRank (p q : Nat × FloatM) : Prop :=
  FloatM.finGt p.2 q.2 = true ∨ (p.2 = q.2 ∧ p.1 < q.1)

theorem finGt_iff (x y : FloatM) :
    FloatM.finGt x y = true ↔ ∃ a b, x = FloatM.fin a ∧ y = FloatM.fin b ∧ b < a := by
  cases x <;> cases y <;> simp [FloatM.finGt]

theorem descRank_trans : ∀ x y z, descRank x y → descRank y z → descRank x z := by
  intro x y z hxy hyz
  rcases hxy with hg | ⟨he, hi⟩
  · rcases (finGt_iff _ _).mp hg with ⟨a, b, hx, hy, hba⟩
    rcases hyz with hg2 | ⟨he2, _⟩
    · rcases (finGt_iff _ _).mp hg2 with ⟨b', c, hy', hz, hcb⟩
      left
      rw [hy] at hy'
      injection hy' with hbb
      exact (finGt_iff _ _).mpr ⟨a, c, hx, hz, by rw [← hbb] at hcb; exact hcb.trans hba⟩
    · left
      exact (finGt_iff _ _).mpr ⟨a, b, hx, he2 ▸ hy, hba⟩
  · rcases hyz with hg2 | ⟨he2, hi2⟩
    · rcases (finGt_iff _ _).mp hg2 with ⟨b', c, hy', hz, hcb⟩
      left
      exact (finGt_iff _ _).mpr ⟨b', c, he ▸ hy', hz, hcb⟩
    · exact Or.inr ⟨he.trans he2, hi.trans hi2⟩

theorem sortLe_fin (i j : Nat) (a b : ℚ) :
    sortLe (i, FloatM.fin a) (j, FloatM.fin b) = decide (b ≤ a) := by
  simp only [sortLe, FloatM.sub, FloatM.neg, FloatM.add]
  rcases lt_trichotomy b a with h | h | h
  · have h1 : b + -a ≤ 0 := by linarith
    have h2 : b ≤ a := le_of_lt h
    simp [h1, h2]
  · subst h
    simp
  · have h1 : ¬ (b + -a ≤ 0) := by intro hc; linarith
    have h2 : ¬ (b ≤ a) := not_le.mpr h
    simp [h1, h2]

theorem scoreDocsFrom_length (qe : Vec) : ∀ (i : Nat) (ds : List StoredDocument),
    (scoreDocsFrom qe i ds).length = ds.length := by
  intro i ds
  induction ds generalizing i with
  | nil => rfl
  | cons d ds ih => simp [scoreDocsFrom, ih]

theorem mem_scoreDocsFrom (qe : Vec) :
    ∀ (i : Nat) (ds : List StoredDocument) (p : Nat × FloatM),
      p ∈ scoreDocsFrom qe i ds →
      i ≤ p.1 ∧ ∃ d ∈ ds, p.2 = cosineSimilarity qe d.embedding := by
  intro i ds
  induction ds generalizing i with
  | nil => intro p hp; simp [scoreDocsFrom] at hp
  | cons d ds ih =>
      intro p hp
      rcases List.mem_cons.mp hp with hph | hpt
      · subst hph
        exact ⟨le_refl _, d, by simp⟩
      · rcases ih (i + 1) p hpt with ⟨hle, d', hd', he⟩
        exact ⟨by omega, d', by simp [hd'], he⟩

theorem pairwise_idx_scoreDocsFrom (qe : Vec) :
    ∀ (i : Nat) (ds : List StoredDocument),
      (scoreDocsFrom qe i ds).Pairwise (fun p q => p.1 < q.1) := by
  intro i ds
  induction ds generalizing i with
  | nil => simp [scoreDocsFrom]
  | cons d ds ih =>
      simp only [scoreDocsFrom]
      rw [List.pairwise_cons]
      refine ⟨?_, ih (i + 1)⟩
      intro q hq
      have := (mem_scoreDocsFrom qe (i + 1) ds q hq).1
      simpa using by omega

theorem rankChunks_length (docs : List StoredDocument) (qe : Vec) :
    (rankChunks docs qe).length = docs.length := by
  simp [rankChunks, jsSortBy_length, scoreDocsFrom_length]

theorem rankChunks_perm (docs : List StoredDocument) (qe : Vec) :
    (rankChunks docs qe).Perm (scoreDocsFrom qe 0 docs) :=
  jsSortBy_perm sortLe (scoreDocsFrom qe 0 docs)

theorem rankChunks_pairwise (docs : List StoredDocument) (qe : Vec)
    (hfin : ∀ d ∈ docs, (cosineSimilarity qe d.embedding).isFin = true) :
    (rankChunks docs qe).Pairwise descRank := by
  apply pairwise_jsSortBy sortLe descRank descRank_trans
  have hidx := pairwise_idx_scoreDocsFrom qe 0 docs
  apply List.Pairwise.imp_of_mem ?_ hidx
  intro p q hp hq hlt
  rcases mem_scoreDocsFrom qe 0 docs p hp with ⟨_, dp, hdp, hep⟩
  rcases mem_scoreDocsFrom qe 0 docs q hq with ⟨_, dq, hdq, heq⟩
  have hfp : p.2.isFin = true := by rw [hep]; exact hfin dp hdp
  have hfq : q.2.isFin = true := by rw [heq]; exact hfin dq hdq
  obtain ⟨a, ha⟩ : ∃ a, p.2 = FloatM.fin a := by
    cases hc : p.2 <;> simp [hc, FloatM.isFin] at hfp ⊢
  obtain ⟨b, hb⟩ : ∃ b, q.2 = FloatM.fin b := by
    cases hc : q.2 <;> simp [hc, FloatM.isFin] at hfq ⊢
  constructor
  · intro hle
    have : sortLe (p.1, FloatM.fin a) (q.1, FloatM.fin b) = true := by
      rw [← ha, ← hb]
      cases p; cases q
      simpa using hle
    rw [sortLe_fin] at this
    have hba : b ≤ a := of_decide_eq_true this
    rcases lt_or_eq_of_le hba with hlt2 | heq2
    · exact Or.inl ((finGt_iff _ _).mpr ⟨a, b, ha, hb, hlt2⟩)
    · exact Or.inr ⟨by rw [ha, hb, heq2], hlt⟩
  · intro hle
    have : sortLe (p.1, FloatM.fin a) (q.1, FloatM.fin b) = false := by
      rw [← ha, ← hb]
      cases p; cases q
      simpa using hle
    rw [sortLe_fin] at this
    have hab : ¬ (b ≤ a) := of_decide_eq_false this
    exact Or.inl ((finGt_iff _ _).mpr ⟨b, a, hb, ha, lt_of_not_le hab⟩)

theorem chunkText_base (C O : Nat) (xs : List α) (h : xs.length ≤ C ∨ C ≤ O) :
    chunkText C O xs = [xs] := by
  rw [chunkText]
  simp [h]

theorem chunkText_step (C O : Nat) (xs : List α) (h1 : C < xs.length) (h2 : O < C) :
    chunkText C O xs = xs.take C :: chunkText C O (xs.drop (C - O)) := by
  rw [chunkText]
  rw [if_neg]
  push_neg
  exact ⟨h1, h2⟩

theorem chunkText_ne_nil (C O : Nat) (xs : List α) : chunkText C O xs ≠ [] := by
  by_cases h : xs.length ≤ C ∨ C ≤ O
  · rw [chunkText_base C O xs h]
    simp
  · push_neg at h
    rw [chunkText_step C O xs h.1 h.2]
    simp

theorem chunkText_getD_aux (C O : Nat) (hCO : O < C) :
    ∀ (n : Nat) (xs : List α), xs.length ≤ n →
      ∀ k, k < (chunkText C O xs).length →
        (chunkText C O xs).getD k [] = (xs.drop (k * (C - O))).take C := by
  intro n
  induction n with
  | zero =>
      intro xs hn k hk
      have hxs : xs = [] := List.eq_nil_of_length_eq_zero (by omega)
      subst hxs
      rw [chunkText_base C O [] (Or.inl (by simp))] at hk ⊢
      simp only [List.length_singleton] at hk
      obtain rfl : k = 0 := by omega
      simp
  | succ n ih =>
      intro xs hn k hk
      by_cases h : xs.length ≤ C
      · rw [chunkText_base C O xs (Or.inl h)] at hk ⊢
        simp only [List.length_singleton] at hk
        obtain rfl : k = 0 := by omega
        simp [List.take_of_length_le h]
      · push_neg at h
        rw [chunkText_step C O xs h hCO] at hk ⊢
        cases k with
        | zero => simp
        | succ k =>
            rw [List.getD_cons_succ]
            have hlen : (xs.drop (C - O)).length ≤ n := by
              rw [List.length_drop]
              omega
            have hk' : k < (chunkText C O (xs.drop (C - O))).length := by
              simp only [List.length_cons] at hk
              omega
            rw [ih (xs.drop (C - O)) hlen k hk', List.drop_drop]
            congr 2
            ring

theorem chunkText_getD (C O : Nat) (hCO : O < C) (xs : List α) (k : Nat)
    (hk : k < (chunkText C O xs).length) :
    (chunkText C O xs).getD k [] = (xs.drop (k * (C - O))).take C :=
  chunkText_getD_aux C O hCO xs.length xs (le_refl _) k hk

theorem chunkText_not_last_long_aux (C O : Nat) (hCO : O < C) :
    ∀ (n : Nat) (xs : List α), xs.length ≤ n →
      ∀ k, k + 1 < (chunkText C O xs).length →
        C < (xs.drop (k * (C - O))).length := by
  intro n
  induction n with
  | zero =>
      intro xs hn k hk
      have hxs : xs = [] := List.eq_nil_of_length_eq_zero (by omega)
      subst hxs
      rw [chunkText_base C O [] (Or.inl (by simp))] at hk
      simp at hk
  | succ n ih =>
      intro xs hn k hk
      by_cases h : xs.length ≤ C
      · rw [chunkText_base C O xs (Or.inl h)] at hk
        simp at hk
      · push_neg at h
        rw [chunkText_step C O xs h hCO] at hk
        simp only [List.length_cons] at hk
        cases k with
        | zero => simpa using h
        | succ k =>
            have hlen : (xs.drop (C - O)).length ≤ n := by
              rw [List.length_drop]
              omega
            have := ih (xs.drop (C - O)) hlen k (by omega)
            rw [List.drop_drop] at this
            have harith : (k + 1) * (C - O) = C - O + k * (C - O) := by ring
            rw [harith]
            exact this

theorem chunkText_cover_aux (C O : Nat) (hCO : O < C) :
    ∀ (n : Nat) (xs : List α), xs.length ≤ n →
      ∀ i, i < xs.length →
        ∃ k, k < (chunkText C O xs).length ∧
          k * (C - O) ≤ i ∧ i < k * (C - O) + ((chunkText C O xs).getD k []).length := by
  intro n
  induction n with
  | zero =>
      intro xs hn i hi
      omega
  | succ n ih =>
      intro xs hn i hi
      by_cases h : xs.length ≤ C
      · refine ⟨0, ?_, by omega, ?_⟩
        · rw [chunkText_base C O xs (Or.inl h)]
          simp
        · rw [chunkText_base C O xs (Or.inl h)]
          simpa using hi
      · push_neg at h
        rw [chunkText_step C O xs h hCO]
        by_cases hiC : i < C
        · refine ⟨0, by simp, by omega, ?_⟩
          have : (xs.take C).length = C := by
            rw [List.length_take]
            omega
          simpa [this] using hiC
        · push_neg at hiC
          have hs : C - O ≤ i := by omega
          have hlen : (xs.drop (C - O)).length ≤ n := by
            rw [List.length_drop]
            omega
          have hi' : i - (C - O) < (xs.drop (C - O)).length := by
            rw [List.length_drop]
            omega
          rcases ih (xs.drop (C - O)) hlen (i - (C - O)) hi' with ⟨k, hk, h1, h2⟩
          refine ⟨k + 1, by simpa using by omega, ?_, ?_⟩
          · have : (k + 1) * (C - O) = k * (C - O) + (C - O) := by ring
            omega
          · rw [List.getD_cons_succ]
            have : (k + 1) * (C - O) = k * (C - O) + (C - O) := by ring
            omega

theorem chunkText_last_aux (C O : Nat) (hCO : O < C) :
    ∀ (n : Nat) (xs : List α), xs.length ≤ n →
      (chunkText C O xs).getD ((chunkText C O xs).length - 1) [] =
        xs.drop (((chunkText C O xs).length - 1) * (C - O)) := by
  intro n
  induction n with
  | zero =>
      intro xs hn
      have hxs : xs = [] := List.eq_nil_of_length_eq_zero (by omega)
      subst hxs
      rw [chunkText_base C O [] (Or.inl (by simp))]
      simp
  | succ n ih =>
      intro xs hn
      by_cases h : xs.length ≤ C
      · rw [chunkText_base C O xs (Or.inl h)]
        simp
      · push_neg at h
        rw [chunkText_step C O xs h hCO]
        have hne := chunkText_ne_nil C O (xs.drop (C - O))
        have hpos : 0 < (chunkText C O (xs.drop (C - O))).length :=
          List.length_pos.mpr hne
        have hlen : (xs.drop (C - O)).length ≤ n := by
          rw [List.length_drop]
          omega
        have hrec := ih (xs.drop (C - O)) hlen
        set m := (chunkText C O (xs.drop (C - O))).length with hm
        have hL : (xs.take C :: chunkText C O (xs.drop (C - O))).length - 1 = m := by
          simp [hm]
        rw [hL]
        have hm1 : m = (m - 1) + 1 := by omega
        rw [hm1, List.getD_cons_succ, ← hm1]
        rw [hrec, List.drop_drop]
        congr 1
        have : m - 1 + 1 = m := by omega
        calc C - O + (m - 1) * (C - O) = (m - 1 + 1) * (C - O) := by ring
        _ = m * (C - O) := by rw [this]

/-- Whether an embedding call succeeded. -/
def isOkE : EmbedResult → Bool
  | EmbedResult.ok _ => true
  | _ => false

/-- The vector of a successful embedding call (junk on failure). -/
def okVec : EmbedResult → Vec
  | EmbedResult.ok v => v
  | _ => []

theorem getEmbeddingsLoop_all_ok (model : String) (env : String → EmbedResult) :
    ∀ texts : List String, (∀ t ∈ texts, isOkE (env t) = true) →
      getEmbeddingsLoop model env texts =
        (Except.ok (texts.map (fun t => okVec (env t))),
          texts.map (fun t => Ev.embedCall model t)) := by
  intro texts
  induction texts with
  | nil => intro _; rfl
  | cons t ts ih =>
      intro h
      have ht : isOkE (env t) = true := h t (by simp)
      have hts : ∀ u ∈ ts, isOkE (env u) = true := fun u hu => h u (by simp [hu])
      cases he : env t with
      | ok v =>
          simp only [getEmbeddingsLoop, he, ih hts, List.map_cons, Except.map]
          simp [okVec, he]
      | httpErr s => rw [he] at ht; simp [isOkE] at ht
      | netErr m => rw [he] at ht; simp [isOkE] at ht

theorem getEmbeddingsLoop_fails (model : String) (env : String → EmbedResult) :
    ∀ (pre : List String) (t : String) (post : List String),
      (∀ u ∈ pre, isOkE (env u) = true) → isOkE (env t) = false →
      ∃ e, getEmbeddingsLoop model env (pre ++ t :: post) =
        (Except.error e, (pre ++ [t]).map (fun u => Ev.embedCall model u)) := by
  intro pre
  induction pre with
  | nil =>
      intro t post _ hbad
      cases he : env t with
      | ok v => rw [he] at hbad; simp [isOkE] at hbad
      | httpErr s =>
          exact ⟨"Failed to get embeddings: " ++ s, by simp [getEmbeddingsLoop, he]⟩
      | netErr m => exact ⟨m, by simp [getEmbeddingsLoop, he]⟩
  | cons u pre ih =>
      intro t post hok hbad
      have hu : isOkE (env u) = true := hok u (by simp)
      have hpre : ∀ w ∈ pre, isOkE (env w) = true := fun w hw => hok w (by simp [hw])
      cases he : env u with
      | ok v =>
          rcases ih t post hpre hbad with ⟨e, hrec⟩
          refine ⟨e, ?_⟩
          have hl : (u :: pre) ++ t :: post = u :: (pre ++ t :: post) := rfl
          have hstep : getEmbeddingsLoop model env (u :: (pre ++ t :: post)) =
              ((getEmbeddingsLoop model env (pre ++ t :: post)).1.map (fun vs => v :: vs),
                Ev.embedCall model u :: (getEmbeddingsLoop model env (pre ++ t :: post)).2) := by
            simp [getEmbeddingsLoop, he]
          rw [hl, hstep, hrec]
          simp [Except.map]
      | httpErr s => rw [he] at hu; simp [isOkE] at hu
      | netErr m => rw [he] at hu; simp [isOkE] at hu

theorem countDiscover_nil : countDiscover [] = 0 := rfl

theorem countDiscover_append (l1 l2 : List Ev) :
    countDiscover (l1 ++ l2) = countDiscover l1 + countDiscover l2 := by
  simp [countDiscover]

theorem countDiscover_embedCalls (model : String) (texts : List String) :
    countDiscover (texts.map (fun t => Ev.embedCall model t)) = 0 := by
  induction texts with
  | nil => rfl
  | cons t ts ih => simp [countDiscover] at ih ⊢

theorem getEmbeddingsLoop_countDiscover (model : String) (env : String → EmbedResult) :
    ∀ texts : List String, countDiscover (getEmbeddingsLoop model env texts).2 = 0 := by
  intro texts
  induction texts with
  | nil => rfl
  | cons t ts ih =>
      cases he : env t with
      | ok v => simpa [getEmbeddingsLoop, he, countDiscover] using ih
      | httpErr s => simp [getEmbeddingsLoop, he, countDiscover]
      | netErr m => simp [getEmbeddingsLoop, he, countDiscover]

theorem wfcGo_trace_cons (env : Nat → FetchResult) (retries n : Nat) (st : OSState) :
    ∃ t, (wfcGo env retries (n + 1) st).2.2 = Ev.discover (retries - (n + 1)) :: t := by
  cases hd : detectAvailableModel (env (retries - (n + 1))) <;> simp [wfcGo, hd]

/-!
## Claim theorems
-/

/-- C4: when every discovery call against the endpoint fails,
`checkConnection()` performs exactly `maxRetries` = 3 discovery
attempts with a `retryDelay` wait between consecutive attempts
(`maxRetries - 1` = 2 waits), each transient failure being swallowed
inside `detectAvailableModel`, and returns the descriptive
`connFailMsg` as an error value rather than a transport exception. -/
theorem checkConnection_retry_bound (env : Nat → FetchResult) (st : OSState)
    (h : ∀ i, i < maxRetries → env i = FetchResult.netError) :
    checkConnection env st =
      (⟨false, some connFailMsg⟩, st,
        [Ev.discover 0, Ev.sleepMs retryDelay, Ev.discover 1, Ev.sleepMs retryDelay,
          Ev.discover 2]) ∧
    countDiscover (checkConnection env st).2.2 = maxRetries := by
  have h0 := h 0 (by decide)
  have h1 := h 1 (by decide)
  have h2 := h 2 (by decide)
  have hmain : checkConnection env st =
      (⟨false, some connFailMsg⟩, st,
        [Ev.discover 0, Ev.sleepMs retryDelay, Ev.discover 1, Ev.sleepMs retryDelay,
          Ev.discover 2]) := by
    simp [checkConnection, waitForConnection, maxRetries, retryDelay, wfcGo, h0, h1, h2,
      detectAvailableModel]
  refine ⟨hmain, ?_⟩
  rw [hmain]
  rfl

/-- Witness for C4 at the concrete environment in which every
discovery fetch is rejected at the network level. -/
theorem checkConnection_retry_bound_witness :
    (∀ i, i < maxRetries → (fun _ : Nat => FetchResult.netError) i = FetchResult.netError) ∧
    (checkConnection (fun _ => FetchResult.netError) initialOSState =
      (⟨false, some connFailMsg⟩, initialOSState,
        [Ev.discover 0, Ev.sleepMs retryDelay, Ev.discover 1, Ev.sleepMs retryDelay,
          Ev.discover 2]) ∧
    countDiscover (checkConnection (fun _ => FetchResult.netError) initialOSState).2.2 =
      maxRetries) :=
  ⟨fun _ _ => rfl,
    checkConnection_retry_bound (fun _ => FetchResult.netError) initialOSState (fun _ _ => rfl)⟩

/-- C3, counterexample: `checkConnection` has no Connected fast path.
After a first successful `checkConnection` (the state records
`isConnected = true`), a second immediate invocation still issues one
discovery call, not zero. -/
theorem checkConnection_second_call_discovers :
    (checkConnection (fun _ => FetchResult.okJson ["llama3.2"]) initialOSState).1.isRunning
        = true ∧
    (checkConnection (fun _ => FetchResult.okJson ["llama3.2"]) initialOSState).2.1.isConnected
        = true ∧
    countDiscover (checkConnection (fun _ => FetchResult.okJson ["llama3.2"])
        (checkConnection (fun _ => FetchResult.okJson ["llama3.2"]) initialOSState).2.1).2.2
        = 1 ∧
    ¬ countDiscover (checkConnection (fun _ => FetchResult.okJson ["llama3.2"])
        (checkConnection (fun _ => FetchResult.okJson ["llama3.2"]) initialOSState).2.1).2.2
        = 0 :=
  ⟨rfl, rfl, rfl, by decide⟩

/-- C3, amended: the Connected fast path lives in `generate` and
`getEmbeddings`, which skip `checkConnection` — and hence all
discovery — when `isConnected` already holds; `checkConnection` itself
always issues at least one discovery call. -/
theorem connected_fast_path (env : Nat → FetchResult) (genRes : GenResult)
    (embedEnv : String → EmbedResult) (prompt : String) (texts : List String) (st : OSState)
    (h : st.isConnected = true) :
    countDiscover (generate env genRes prompt st).2.2 = 0 ∧
    countDiscover (getEmbeddings env embedEnv texts st).2.2 = 0 ∧
    ∀ (envB : Nat → FetchResult) (stB : OSState),
      1 ≤ countDiscover (checkConnection envB stB).2.2 := by
  refine ⟨?_, ?_, ?_⟩
  · cases genRes <;> simp [generate, h, genCore, countDiscover]
  · have hc := getEmbeddingsLoop_countDiscover st.modelName embedEnv texts
    simp [getEmbeddings, h, hc]
  · intro envB stB
    have htr : (checkConnection envB stB).2.2 = (wfcGo envB 3 3 stB).2.2 := by
      simp only [checkConnection, waitForConnection, maxRetries]
      by_cases hb : (wfcGo envB 3 3 stB).1 = true <;> simp [hb]
    rw [htr]
    obtain ⟨t, ht⟩ := wfcGo_trace_cons envB 3 2 stB
    have ht' : (wfcGo envB 3 3 stB).2.2 = Ev.discover (3 - (2 + 1)) :: t := ht
    rw [ht']
    simp [countDiscover]

/-- Witness for C3's amended theorem at a connected state. -/
theorem connected_fast_path_witness :
    ((⟨true, "llama3.2"⟩ : OSState).isConnected = true) ∧
    (countDiscover (generate (fun _ => FetchResult.netError) (GenResult.ok "hello") "hi"
        ⟨true, "llama3.2"⟩).2.2 = 0 ∧
    countDiscover (getEmbeddings (fun _ => FetchResult.netError)
        (fun _ => EmbedResult.ok [FloatM.fin 1]) ["a"] ⟨true, "llama3.2"⟩).2.2 = 0 ∧
    ∀ (envB : Nat → FetchResult) (stB : OSState),
      1 ≤ countDiscover (checkConnection envB stB).2.2) :=
  ⟨rfl, connected_fast_path (fun _ => FetchResult.netError) (GenResult.ok "hello")
    (fun _ => EmbedResult.ok [FloatM.fin 1]) "hi" ["a"] ⟨true, "llama3.2"⟩ rfl⟩

/-- C8, counterexample: for the model list `["llama3.2:3b"]` the code
treats the tag variant as a preferred match and records the bare name
`llama3.2` (which is not in the list), whereas the claimed policy
(exact preferred match, else first non-excluded) would select
`llama3.2:3b`. -/
theorem detectAvailableModel_not_spec_order :
    detectAvailableModel (FetchResult.okJson ["llama3.2:3b"]) = some "llama3.2" ∧
    specSelectModel "llama3.2" ["llama3.2:3b"] = some "llama3.2:3b" ∧
    detectAvailableModel (FetchResult.okJson ["llama3.2:3b"]) ≠
      specSelectModel "llama3.2" ["llama3.2:3b"] := by
  refine ⟨by decide, by decide, by decide⟩

/-- C8, amended: discovery selects by the order — a listed name equal
to `llama3.2` or starting with `llama3.2:` (recording the bare name
`llama3.2`), otherwise the first listed name not containing `vision`
(recording that listed name), otherwise none; on success
`checkConnection` records the chosen name in `modelName`, and
`generate` / `getEmbeddings` issue their calls with that recorded
name. -/
theorem detectAvailableModel_amended :
    (∀ ms : List String, detectAvailableModel (FetchResult.okJson ms) = amendedSelect ms) ∧
    (∀ (env : Nat → FetchResult) (st : OSState) (m : String),
      detectAvailableModel (env 0) = some m →
      (checkConnection env st).1.isRunning = true ∧
      (checkConnection env st).2.1.modelName = m) ∧
    (∀ (env : Nat → FetchResult) (genRes : GenResult) (prompt : String) (st : OSState),
      st.isConnected = true →
      (generate env genRes prompt st).2.2 = [Ev.generateCall st.modelName prompt]) ∧
    (∀ (env : Nat → FetchResult) (embedEnv : String → EmbedResult) (t : String) (st : OSState),
      st.isConnected = true →
      (getEmbeddings env embedEnv [t] st).2.2 = [Ev.embedCall st.modelName t]) := by
  refine ⟨?_, ?_, ?_, ?_⟩
  · intro ms
    cases ms with
    | nil => rfl
    | cons a l =>
        simp only [detectAvailableModel, amendedSelect]
        cases hf : (a :: l).find? (fun m => m == "llama3.2" || "llama3.2:".data.isPrefixOf m.data) with
        | some x =>
            have hx := List.find?_some hf
            have hmem := List.mem_of_find?_eq_some hf
            have hany : (a :: l).any
                (fun m => m == "llama3.2" || "llama3.2:".data.isPrefixOf m.data) = true :=
              List.any_eq_true.mpr ⟨x, hmem, hx⟩
            simp [hany]
        | none =>
            have hnone := List.find?_eq_none.mp hf
            have hany : (a :: l).any
                (fun m => m == "llama3.2" || "llama3.2:".data.isPrefixOf m.data) = false := by
              rw [Bool.eq_false_iff]
              intro hc
              rcases List.any_eq_true.mp hc with ⟨x, hxm, hxp⟩
              exact hnone x hxm hxp
            simp only [hany, Bool.false_eq_true, if_false]
            cases hg : (a :: l).find? (fun m => !(containsSub m "vision")) <;> simp [hg]
  · intro env st m h
    constructor <;> simp [checkConnection, waitForConnection, maxRetries, wfcGo, h]
  · intro env genRes prompt st h
    cases genRes <;> simp [generate, h, genCore]
  · intro env embedEnv t st h
    cases he : embedEnv t <;> simp [getEmbeddings, h, getEmbeddingsLoop, he]

/-- Witness for C8's amended theorem at concrete inputs. -/
theorem detectAvailableModel_amended_witness :
    (detectAvailableModel (FetchResult.okJson ["mistral:7b"]) = amendedSelect ["mistral:7b"]) ∧
    ((checkConnection (fun _ => FetchResult.okJson ["llama3.2"]) initialOSState).1.isRunning
        = true ∧
      (checkConnection (fun _ => FetchResult.okJson ["llama3.2"])
        initialOSState).2.1.modelName = "llama3.2") ∧
    (generate (fun _ => FetchResult.netError) (GenResult.ok "hello") "hi"
        ⟨true, "mistral:7b"⟩).2.2 = [Ev.generateCall "mistral:7b" "hi"] ∧
    (getEmbeddings (fun _ => FetchResult.netError) (fun _ => EmbedResult.ok [FloatM.fin 1])
        ["a"] ⟨true, "mistral:7b"⟩).2.2 = [Ev.embedCall "mistral:7b" "a"] :=
  ⟨detectAvailableModel_amended.1 ["mistral:7b"],
    detectAvailableModel_amended.2.1 (fun _ => FetchResult.okJson ["llama3.2"])
      initialOSState "llama3.2" rfl,
    detectAvailableModel_amended.2.2.1 (fun _ => FetchResult.netError) (GenResult.ok "hello")
      "hi" ⟨true, "mistral:7b"⟩ rfl,
    detectAvailableModel_amended.2.2.2 (fun _ => FetchResult.netError)
      (fun _ => EmbedResult.ok [FloatM.fin 1]) "a" ⟨true, "mistral:7b"⟩ rfl⟩

/-- C9, counterexample: on a store that is empty but not yet
initialized, `similaritySearch` does raise an error when the
initialization connection check fails, contradicting "never raises an
error". -/
theorem similaritySearch_empty_store_error :
    similaritySearchM false (fun _ => FetchResult.netError) initialOSState []
      (Except.ok []) 3 = Except.error connFailMsg ∧
    similaritySearchM false (fun _ => FetchResult.netError) initialOSState []
      (Except.ok []) 3 ≠ Except.ok [] := by
  refine ⟨rfl, ?_⟩
  intro hc
  exact Except.noConfusion (hc.symm.trans
    (rfl : similaritySearchM false (fun _ => FetchResult.netError) initialOSState []
      (Except.ok []) 3 = Except.error connFailMsg))

/-- C9, amended: for an empty store, `similaritySearch` returns the
empty sequence and raises no error, for every query-embedding outcome
and every `k`, provided the store is already initialized or the
initialization connection check succeeds. -/
theorem similaritySearch_empty_store_ok (b : Bool) (env : Nat → FetchResult) (st : OSState)
    (qRes : Except String Vec) (k : Nat)
    (h : b = true ∨ (checkConnection env st).1.isRunning = true) :
    similaritySearchM b env st [] qRes k = Except.ok [] := by
  rcases h with h | h
  · subst h
    rfl
  · cases b
    · simp [similaritySearchM, h, similaritySearchBody]
    · rfl

/-- Witness for C9's amended theorem: an initialized empty store with a
failed-embedding query outcome still returns the empty list. -/
theorem similaritySearch_empty_store_ok_witness :
    (true = true ∨ (checkConnection (fun _ => FetchResult.netError)
        initialOSState).1.isRunning = true) ∧
    similaritySearchM true (fun _ => FetchResult.netError) initialOSState []
      (Except.error "boom") 5 = Except.ok [] :=
  ⟨Or.inl rfl,
    similaritySearch_empty_store_ok true (fun _ => FetchResult.netError) initialOSState
      (Except.error "boom") 5 (Or.inl rfl)⟩

/-- C10: `cosineSimilarity` computes `dot / (|a| * |b|)` with no guard
on the denominator or the vector lengths: a zero-magnitude stored and
query embedding yields `0/0 = NaN`, a length mismatch yields `NaN`
through the out-of-range component read, and `similaritySearch` still
sorts with the `NaN` score and returns the chunk instead of raising an
error. -/
theorem cosineSimilarity_nan_unguarded :
    cosineSimilarity [FloatM.fin 0] [FloatM.fin 0] = FloatM.nan ∧
    FloatM.nan.isFin = false ∧
    cosineSimilarity [FloatM.fin 1, FloatM.fin 1] [FloatM.fin 1] = FloatM.nan ∧
    similaritySearchM true (fun _ => FetchResult.netError) initialOSState
      [⟨"a", [FloatM.fin 0]⟩] (Except.ok [FloatM.fin 0]) 3 = Except.ok ["a"] := by
  refine ⟨?_, rfl, ?_, ?_⟩
  · norm_num [cosineSimilarity, dotProduct, dotGo, sumSquares, FloatM.add, FloatM.mul,
      FloatM.div, FloatM.sqrtF, FloatM.ratSqrt]
  · norm_num [cosineSimilarity, dotProduct, dotGo, sumSquares, FloatM.add, FloatM.mul,
      FloatM.div, FloatM.sqrtF, FloatM.ratSqrt]
  · norm_num [similaritySearchM, similaritySearchBody, rankChunks, scoreDocsFrom, jsSortBy,
      jsInsert, cosineSimilarity, dotProduct, dotGo, sumSquares, FloatM.add, FloatM.mul,
      FloatM.div, FloatM.sqrtF, FloatM.ratSqrt]

/-- C2, counterexample: a failure of the query-embedding call during
`similaritySearch` is swallowed by the `catch` block, which returns an
empty result instead of propagating the error. -/
theorem similaritySearch_swallows_error :
    similaritySearchM true (fun _ => FetchResult.netError) initialOSState
      [⟨"a", [FloatM.fin 1]⟩] (Except.error "fetch failed") 3 = Except.ok [] ∧
    similaritySearchM true (fun _ => FetchResult.netError) initialOSState
      [⟨"a", [FloatM.fin 1]⟩] (Except.error "fetch failed") 3 ≠
      Except.error "fetch failed" := by
  refine ⟨rfl, ?_⟩
  intro hc
  exact Except.noConfusion
    ((rfl : similaritySearchM true (fun _ => FetchResult.netError) initialOSState
        [⟨"a", [FloatM.fin 1]⟩] (Except.error "fetch failed") 3 =
          Except.ok []).symm.trans hc)

/-- C2, amended: `similaritySearch` catches an embedding or search
failure and returns an empty list in its place; the error that
`getEmbeddings` itself reports does propagate, but wrapped in a
`Failed to generate embeddings:` message rather than unmodified. -/
theorem similaritySearch_error_policy (env : Nat → FetchResult) (st : OSState)
    (docs : List StoredDocument) (emsg : String) (k : Nat) (h : docs ≠ []) :
    similaritySearchM true env st docs (Except.error emsg) k = Except.ok [] ∧
    (∀ (embedEnv : String → EmbedResult) (texts : List String) (st' : OSState) (e : String),
      st'.isConnected = true →
      (getEmbeddingsLoop st'.modelName embedEnv texts).1 = Except.error e →
      (getEmbeddings env embedEnv texts st').1 =
        Except.error ("Failed to generate embeddings: " ++ e)) := by
  constructor
  · simp [similaritySearchM, similaritySearchBody, List.length_eq_zero, h]
  · intro embedEnv texts st' e hconn hloop
    simp [getEmbeddings, hconn, hloop, Except.mapError]

/-- Witness for C2's amended theorem on a one-chunk store. -/
theorem similaritySearch_error_policy_witness :
    ([(⟨"a", [FloatM.fin 1]⟩ : StoredDocument)] ≠ []) ∧
    (similaritySearchM true (fun _ => FetchResult.netError) initialOSState
      [⟨"a", [FloatM.fin 1]⟩] (Except.error "fetch failed") 3 = Except.ok [] ∧
    (∀ (embedEnv : String → EmbedResult) (texts : List String) (st' : OSState) (e : String),
      st'.isConnected = true →
      (getEmbeddingsLoop st'.modelName embedEnv texts).1 = Except.error e →
      (getEmbeddings (fun _ => FetchResult.netError) embedEnv texts st').1 =
        Except.error ("Failed to generate embeddings: " ++ e))) :=
  ⟨List.cons_ne_nil _ _,
    similaritySearch_error_policy (fun _ => FetchResult.netError) initialOSState
      [⟨"a", [FloatM.fin 1]⟩] "fetch failed" 3 (List.cons_ne_nil _ _)⟩

/-- C1, counterexample: with a reachable store state that yields zero
retrieved chunks, the chat route does not fail fast: it still invokes
`generate` and returns the ungrounded answer with status 200 and an
empty context, instead of a no-relevant-information error. -/
theorem chatRoute_no_fail_fast :
    (chatPOST (fun _ => FetchResult.okJson ["llama3.2"]) (GenResult.ok "ungrounded answer")
      initialOSState (some "hi") [] (Except.ok [])).1 =
      ⟨200, some "ungrounded answer", none, []⟩ ∧
    (chatPOST (fun _ => FetchResult.okJson ["llama3.2"]) (GenResult.ok "ungrounded answer")
      initialOSState (some "hi") [] (Except.ok [])).2.contains
        (Ev.generateCall "llama3.2" (promptNoContext [] "hi")) = true := by
  refine ⟨rfl, by decide⟩

/-- C1, amended: whenever retrieval yields zero chunks — whether it
returned an empty list or threw (the route's `catch` keeps the chunk
list empty) — the route builds the context-free prompt, still invokes
`generate`, and returns the generated answer with status 200 and empty
context; no no-relevant-information error path exists. -/
theorem chatRoute_generates_without_context (env : Nat → FetchResult) (st : OSState)
    (m mdl genText : String) (history : List (String × String))
    (retrieval : Except String (List String))
    (hdet : detectAvailableModel (env 0) = some mdl)
    (hm : m ≠ "")
    (hret : retrieval = Except.ok [] ∨ ∃ e, retrieval = Except.error e) :
    (chatPOST env (GenResult.ok genText) st (some m) history retrieval).1 =
      ⟨200, some genText, none, []⟩ ∧
    (chatPOST env (GenResult.ok genText) st (some m) history retrieval).2 =
      [Ev.discover 0, Ev.generateCall mdl (promptNoContext history m)] := by
  have hcc : checkConnection env st = (⟨true, none⟩, ⟨true, mdl⟩, [Ev.discover 0]) := by
    simp [checkConnection, waitForConnection, maxRetries, wfcGo, hdet]
  rcases hret with hret | ⟨e, hret⟩ <;>
    subst hret <;>
    constructor <;>
    simp [chatPOST, hcc, hm, generate, genCore]

/-- Witness for C1's amended theorem, covering both ways of getting
zero chunks. -/
theorem chatRoute_generates_without_context_witness :
    (detectAvailableModel ((fun _ : Nat => FetchResult.okJson ["llama3.2"]) 0)
        = some "llama3.2") ∧
    ("hi" ≠ "") ∧
    ((chatPOST (fun _ => FetchResult.okJson ["llama3.2"]) (GenResult.ok "answer")
        initialOSState (some "hi") [] (Except.error "store failure")).1 =
      ⟨200, some "answer", none, []⟩ ∧
    (chatPOST (fun _ => FetchResult.okJson ["llama3.2"]) (GenResult.ok "answer")
        initialOSState (some "hi") [] (Except.error "store failure")).2 =
      [Ev.discover 0, Ev.generateCall "llama3.2" (promptNoContext [] "hi")]) :=
  ⟨rfl, by decide,
    chatRoute_generates_without_context (fun _ => FetchResult.okJson ["llama3.2"])
      initialOSState "hi" "llama3.2" "answer" [] (Except.error "store failure") rfl
      (by decide) (Or.inr ⟨"store failure", rfl⟩)⟩

/-- C6: with the service connected, `getEmbeddings` issues exactly one
embedding call per input text, sequentially in input order, and
returns one vector per text in the same order; if some call fails, the
whole operation fails, the calls after the failing one are never
issued, and no partial vector list is returned. -/
theorem getEmbeddings_sequential (env : Nat → FetchResult) (embedEnv : String → EmbedResult)
    (texts : List String) (st : OSState) (h : st.isConnected = true) :
    ((∀ t ∈ texts, isOkE (embedEnv t) = true) →
      (getEmbeddings env embedEnv texts st).1 =
        Except.ok (texts.map (fun t => okVec (embedEnv t))) ∧
      (getEmbeddings env embedEnv texts st).2.2 =
        texts.map (fun t => Ev.embedCall st.modelName t)) ∧
    (∀ (pre : List String) (t : String) (post : List String),
      texts = pre ++ t :: post →
      (∀ u ∈ pre, isOkE (embedEnv u) = true) → isOkE (embedEnv t) = false →
      (∃ e, (getEmbeddings env embedEnv texts st).1 = Except.error e) ∧
      (getEmbeddings env embedEnv texts st).2.2 =
        (pre ++ [t]).map (fun u => Ev.embedCall st.modelName u)) := by
  constructor
  · intro hall
    have hl := getEmbeddingsLoop_all_ok st.modelName embedEnv texts hall
    constructor <;> simp [getEmbeddings, h, hl, Except.mapError]
  · intro pre t post hsplit hok hbad
    subst hsplit
    rcases getEmbeddingsLoop_fails st.modelName embedEnv pre t post hok hbad with ⟨e, hl⟩
    constructor
    · exact ⟨"Failed to generate embeddings: " ++ e,
        by simp [getEmbeddings, h, hl, Except.mapError]⟩
    · simp [getEmbeddings, h, hl]

/-- Witness for C6: an all-successful run returns all three vectors in
order with one call per text, and a run whose second call fails stops
after the second call with an error and no partial list. -/
theorem getEmbeddings_sequential_witness :
    ((⟨true, "llama3.2"⟩ : OSState).isConnected = true) ∧
    ((getEmbeddings (fun _ => FetchResult.netError) (fun _ => EmbedResult.ok [FloatM.fin 1])
        ["a", "b"] ⟨true, "llama3.2"⟩).1 =
      Except.ok [[FloatM.fin 1], [FloatM.fin 1]] ∧
    (getEmbeddings (fun _ => FetchResult.netError) (fun _ => EmbedResult.ok [FloatM.fin 1])
        ["a", "b"] ⟨true, "llama3.2"⟩).2.2 =
      [Ev.embedCall "llama3.2" "a", Ev.embedCall "llama3.2" "b"]) ∧
    ((∃ e, (getEmbeddings (fun _ => FetchResult.netError)
        (fun t => if t == "b" then EmbedResult.httpErr "Internal Server Error"
          else EmbedResult.ok [FloatM.fin 1])
        ["a", "b", "c"] ⟨true, "llama3.2"⟩).1 = Except.error e) ∧
    (getEmbeddings (fun _ => FetchResult.netError)
        (fun t => if t == "b" then EmbedResult.httpErr "Internal Server Error"
          else EmbedResult.ok [FloatM.fin 1])
        ["a", "b", "c"] ⟨true, "llama3.2"⟩).2.2 =
      (["a"] ++ ["b"]).map (fun u => Ev.embedCall "llama3.2" u)) := by
  refine ⟨rfl, ?_, ?_⟩
  · have h1 := (getEmbeddings_sequential (fun _ => FetchResult.netError)
      (fun _ => EmbedResult.ok [FloatM.fin 1]) ["a", "b"] ⟨true, "llama3.2"⟩ rfl).1
      (by intro t ht; rfl)
    exact h1
  · exact (getEmbeddings_sequential (fun _ => FetchResult.netError)
      (fun t => if t == "b" then EmbedResult.httpErr "Internal Server Error"
        else EmbedResult.ok [FloatM.fin 1])
      ["a", "b", "c"] ⟨true, "llama3.2"⟩ rfl).2 ["a"] "b" ["c"] rfl
      (by decide) (by decide)

/-- C5: for an initialized store of `n` chunks, a query embedding
whose scores against every stored chunk are ordinary (finite) numbers,
and any `k ≤ n`, `similaritySearch` returns exactly the texts of the
first `k` entries of the stable descending sort of the indexed scores
(a permutation of the scored chunks), that ranking being ordered by
strictly decreasing score with equal scores broken by the original
insertion index, and the returned list has length exactly `k`. -/
theorem similaritySearch_topk (env : Nat → FetchResult) (st : OSState)
    (docs : List StoredDocument) (qe : Vec) (k : Nat)
    (hk : k ≤ docs.length)
    (hfin : ∀ d ∈ docs, (cosineSimilarity qe d.embedding).isFin = true) :
    (rankChunks docs qe).length = docs.length ∧
    (rankChunks docs qe).Perm (scoreDocsFrom qe 0 docs) ∧
    (rankChunks docs qe).Pairwise descRank ∧
    similaritySearchM true env st docs (Except.ok qe) k =
      Except.ok (((rankChunks docs qe).take k).map
        (fun p => (docs.getD p.1 ⟨"", []⟩).pageContent)) ∧
    (((rankChunks docs qe).take k).map
        (fun p => (docs.getD p.1 ⟨"", []⟩).pageContent)).length = k := by
  have hlen := rankChunks_length docs qe
  refine ⟨hlen, rankChunks_perm docs qe, rankChunks_pairwise docs qe hfin, ?_, ?_⟩
  · by_cases hd : docs.length = 0
    · have hdocs : docs = [] := List.length_eq_zero.mp hd
      subst hdocs
      simp [similaritySearchM, similaritySearchBody, rankChunks, scoreDocsFrom, jsSortBy]
    · simp [similaritySearchM, similaritySearchBody, hd]
  · rw [List.length_map, List.length_take]
    omega

/-- Witness for C5 on a two-chunk store whose chunks tie with score 1
against the query: the top-1 result is the first inserted chunk. -/
theorem similaritySearch_topk_witness :
    (1 ≤ ([⟨"x", [FloatM.fin 1]⟩, ⟨"y", [FloatM.fin 1]⟩] : List StoredDocument).length) ∧
    (∀ d ∈ ([⟨"x", [FloatM.fin 1]⟩, ⟨"y", [FloatM.fin 1]⟩] : List StoredDocument),
      (cosineSimilarity [FloatM.fin 1] d.embedding).isFin = true) ∧
    ((rankChunks [⟨"x", [FloatM.fin 1]⟩, ⟨"y", [FloatM.fin 1]⟩] [FloatM.fin 1]).length = 2 ∧
    (rankChunks [⟨"x", [FloatM.fin 1]⟩, ⟨"y", [FloatM.fin 1]⟩] [FloatM.fin 1]).Perm
      (scoreDocsFrom [FloatM.fin 1] 0 [⟨"x", [FloatM.fin 1]⟩, ⟨"y", [FloatM.fin 1]⟩]) ∧
    (rankChunks [⟨"x", [FloatM.fin 1]⟩, ⟨"y", [FloatM.fin 1]⟩] [FloatM.fin 1]).Pairwise
      descRank ∧
    similaritySearchM true (fun _ => FetchResult.netError) initialOSState
      [⟨"x", [FloatM.fin 1]⟩, ⟨"y", [FloatM.fin 1]⟩] (Except.ok [FloatM.fin 1]) 1 =
      Except.ok (((rankChunks [⟨"x", [FloatM.fin 1]⟩, ⟨"y", [FloatM.fin 1]⟩]
          [FloatM.fin 1]).take 1).map
        (fun p => (([⟨"x", [FloatM.fin 1]⟩, ⟨"y", [FloatM.fin 1]⟩] :
          List StoredDocument).getD p.1 ⟨"", []⟩).pageContent)) ∧
    (((rankChunks [⟨"x", [FloatM.fin 1]⟩, ⟨"y", [FloatM.fin 1]⟩] [FloatM.fin 1]).take 1).map
        (fun p => (([⟨"x", [FloatM.fin 1]⟩, ⟨"y", [FloatM.fin 1]⟩] :
          List StoredDocument).getD p.1 ⟨"", []⟩).pageContent)).length = 1) := by
  have hone : cosineSimilarity [FloatM.fin 1] [FloatM.fin 1] = FloatM.fin 1 := by
    norm_num [cosineSimilarity, dotProduct, dotGo, sumSquares, FloatM.add, FloatM.mul,
      FloatM.div, FloatM.sqrtF, FloatM.ratSqrt]
  have hfin : ∀ d ∈ ([⟨"x", [FloatM.fin 1]⟩, ⟨"y", [FloatM.fin 1]⟩] : List StoredDocument),
      (cosineSimilarity [FloatM.fin 1] d.embedding).isFin = true := by
    intro d hd
    rcases List.mem_cons.mp hd with rfl | hd2
    · rw [show (⟨"x", [FloatM.fin 1]⟩ : StoredDocument).embedding = [FloatM.fin 1] from rfl,
        hone]
      rfl
    · rcases List.mem_cons.mp hd2 with rfl | hd3
      · rw [show (⟨"y", [FloatM.fin 1]⟩ : StoredDocument).embedding = [FloatM.fin 1] from rfl,
          hone]
        rfl
      · simp at hd3
  exact ⟨by decide, hfin,
    similaritySearch_topk (fun _ => FetchResult.netError) initialOSState
      [⟨"x", [FloatM.fin 1]⟩, ⟨"y", [FloatM.fin 1]⟩] [FloatM.fin 1] 1 (by decide) hfin⟩

/-- C7 (chunker modelled from the spec, the splitter implementation
being an external dependency): for `O < C`, the output is nonempty (the
final chunk, though possibly shorter than `C`, is never dropped), chunk
`k` is the window of up to `C` units starting at `k·(C-O)`, every
non-final chunk has full length `C` and shares exactly `O` trailing
units with the leading `O` units of its successor, every input position
lies inside some chunk (the spans cover `[0, L)` with no gaps), and the
final chunk extends to the end of the input. -/
theorem chunkText_spec {α : Type} (C O : Nat) (xs : List α) (hCO : O < C) :
    chunkText C O xs ≠ [] ∧
    (∀ k, k < (chunkText C O xs).length →
      (chunkText C O xs).getD k [] = (xs.drop (k * (C - O))).take C) ∧
    (∀ k, k + 1 < (chunkText C O xs).length →
      ((chunkText C O xs).getD k []).length = C ∧
      ((chunkText C O xs).getD k []).drop (C - O) =
        ((chunkText C O xs).getD (k + 1) []).take O) ∧
    (∀ i, i < xs.length →
      ∃ k, k < (chunkText C O xs).length ∧
        k * (C - O) ≤ i ∧ i < k * (C - O) + ((chunkText C O xs).getD k []).length) ∧
    (chunkText C O xs).getD ((chunkText C O xs).length - 1) [] =
      xs.drop (((chunkText C O xs).length - 1) * (C - O)) := by
  refine ⟨chunkText_ne_nil C O xs, ?_, ?_, ?_, ?_⟩
  · intro k hk
    exact chunkText_getD C O hCO xs k hk
  · intro k hk1
    have hfull := chunkText_not_last_long_aux C O hCO xs.length xs (le_refl _) k hk1
    have hgk := chunkText_getD C O hCO xs k (by omega)
    have hgk1 := chunkText_getD C O hCO xs (k + 1) hk1
    rw [List.length_drop] at hfull
    constructor
    · rw [hgk, List.length_take, List.length_drop]
      omega
    · rw [hgk, hgk1, List.drop_take, List.drop_drop, List.take_take]
      have e1 : k * (C - O) + (C - O) = (k + 1) * (C - O) := by ring
      have e2 : C - (C - O) = O := by omega
      have e3 : min O C = O := by omega
      rw [e1, e2, e3]
  · intro i hi
    exact chunkText_cover_aux C O hCO xs.length xs (le_refl _) i hi
  · exact chunkText_last_aux C O hCO xs.length xs (le_refl _)

/-- Witness for C7 at `C = 5`, `O = 2` on a nine-element input. -/
theorem chunkText_spec_witness :
    (2 < 5) ∧
    (chunkText 5 2 (List.range 9) ≠ [] ∧
    (∀ k, k < (chunkText 5 2 (List.range 9)).length →
      (chunkText 5 2 (List.range 9)).getD k [] = ((List.range 9).drop (k * (5 - 2))).take 5) ∧
    (∀ k, k + 1 < (chunkText 5 2 (List.range 9)).length →
      ((chunkText 5 2 (List.range 9)).getD k []).length = 5 ∧
      ((chunkText 5 2 (List.range 9)).getD k []).drop (5 - 2) =
        ((chunkText 5 2 (List.range 9)).getD (k + 1) []).take 2) ∧
    (∀ i, i < (List.range 9).length →
      ∃ k, k < (chunkText 5 2 (List.range 9)).length ∧
        k * (5 - 2) ≤ i ∧ i < k * (5 - 2) + ((chunkText 5 2 (List.range 9)).getD k []).length) ∧
    (chunkText 5 2 (List.range 9)).getD ((chunkText 5 2 (List.range 9)).length - 1) [] =
      (List.range 9).drop (((chunkText 5 2 (List.range 9)).length - 1) * (5 - 2))) :=
  ⟨by decide, chunkText_spec 5 2 (List.range 9) (by decide)⟩
